import Mathlib

/-!
Verification of the regional-model preparation notebooks (initial conditions
and external forcing conditions).

The notebooks assemble ECCO source fields into flat point collections,
normalize velocity fields by open-cell fractions, interpolate them onto a
regional target grid through the masked horizontal interpolator, apply unit
conversions, and serialize every result as a flat, headerless, big-endian
4-byte binary file.

Conventions of the embedding:
* numeric field values are rationals (`Rat`), standing for the real values
  the notebooks manipulate;
* 2D arrays are `List (List α)` (rows of columns), 3D arrays are
  `List (List (List α))` (levels or timesteps, then rows, then columns);
* masks are arrays of rationals, `0` meaning closed/false and any non-zero
  value (in practice `1`) meaning open/true, exactly as in the notebooks;
* the byte-level serialization operates on the 32-bit patterns that
  `astype` with a big-endian 4-byte float dtype produces: one value becomes
  one natural number below `2 ^ 32`, and the file is a list of bytes.
-/

/-! ## Flat big-endian binary serialization

The notebooks persist every produced field with
`grid.ravel(C-order).astype(big-endian float32).tofile(path)` and read
fields back with `np.fromfile(path, big-endian float32).reshape(shape)`.
The value-to-bit-pattern step is the IEEE-754 binary32 encoding, which is
injective on finite values; we model a field ready for serialization as its
array of 32-bit patterns (naturals below `2 ^ 32`).
-/

/-- Big-endian 4-byte encoding of a 32-bit pattern: most significant byte
first, as `astype` with dtype string beginning with the big-endian marker
produces. -/
def natToBE4 (x : Nat) : List Nat :=
  [x / 2 ^ 24 % 256, x / 2 ^ 16 % 256, x / 2 ^ 8 % 256, x % 256]

/-- Big-endian decoding of 4 bytes back into a 32-bit pattern. -/
def be4ToNat (b0 b1 b2 b3 : Nat) : Nat :=
  ((b0 * 256 + b1) * 256 + b2) * 256 + b3

/-- Decode a flat byte stream as consecutive big-endian 4-byte values,
as `np.fromfile` with a big-endian 4-byte dtype does. -/
def decodeBE4 : List Nat → List Nat
  | b0 :: b1 :: b2 :: b3 :: rest => be4ToNat b0 b1 b2 b3 :: decodeBE4 rest
  | _ => []

/-- `ravel` in C (row-major) order of a 3D array: levels concatenated, each
level its rows concatenated, so the column index varies fastest, then the
row index, then the level index slowest. -/
def ravelC (a : List (List (List α))) : List α :=
  (a.map List.flatten).flatten

/-- The byte stream `tofile` writes for a 3D array of 32-bit patterns:
flat, headerless, C-order, each value as 4 big-endian bytes. -/
def writeBigEndianFile (a : List (List (List Nat))) : List Nat :=
  ((ravelC a).map natToBE4).flatten

/-- Split a flat list into `r` consecutive rows of `c` entries each
(`reshape` to two trailing dimensions). -/
def chunkRows : Nat → Nat → List α → List (List α)
  | 0, _, _ => []
  | r + 1, c, l => l.take c :: chunkRows r c (l.drop c)

/-- `reshape` of a flat list to shape (levels, rows, cols) in C order. -/
def reshape3 (levels rows cols : Nat) (l : List α) : List (List (List α)) :=
  (chunkRows levels (rows * cols) l).map (chunkRows rows cols)

/-- Reading a persisted 3D field back: `np.fromfile` with the big-endian
4-byte dtype followed by `reshape((levels, rows, cols))`. -/
def readBigEndianFile3 (levels rows cols : Nat) (bytes : List Nat) :
    List (List (List Nat)) :=
  reshape3 levels rows cols (decodeBE4 bytes)

/-- Reading a persisted single-level field back: `np.fromfile` with the
big-endian 4-byte dtype followed by `reshape((rows, cols))`. -/
def readBigEndianFile2 (rows cols : Nat) (bytes : List Nat) :
    List (List Nat) :=
  chunkRows rows cols (decodeBE4 bytes)

/-- Well-shapedness of a 3D array: `L` levels, each with `R` rows of `C`
columns. -/
def wellShaped3 (L R C : Nat) (a : List (List (List α))) : Prop :=
  a.length = L ∧ ∀ lv ∈ a, lv.length = R ∧ ∀ row ∈ lv, row.length = C

instance (L R C : Nat) (a : List (List (List Nat))) :
    Decidable (wellShaped3 L R C a) := by
  unfold wellShaped3; infer_instance

/-! ### Helper lemmas about the serialization primitives -/

theorem be4ToNat_natToBE4 (x : Nat) (h : x < 2 ^ 32) :
    be4ToNat (x / 2 ^ 24 % 256) (x / 2 ^ 16 % 256) (x / 2 ^ 8 % 256) (x % 256) = x := by
  unfold be4ToNat
  omega

theorem decodeBE4_encode (l : List Nat) (h : ∀ x ∈ l, x < 2 ^ 32) :
    decodeBE4 ((l.map natToBE4).flatten) = l := by
  induction l with
  | nil => rfl
  | cons x t ih =>
    have hx : x < 2 ^ 32 := h x (by simp)
    have hsplit : (List.map natToBE4 (x :: t)).flatten
        = x / 2 ^ 24 % 256 :: x / 2 ^ 16 % 256 :: x / 2 ^ 8 % 256 :: x % 256 ::
          (List.map natToBE4 t).flatten := by
      simp [natToBE4]
    rw [hsplit]
    simp only [decodeBE4]
    rw [be4ToNat_natToBE4 x hx, ih (fun y hy => h y (by simp [hy]))]

theorem chunkRows_flatten (ls : List (List α)) (n : Nat)
    (h : ∀ l ∈ ls, l.length = n) :
    chunkRows ls.length n ls.flatten = ls := by
  induction ls with
  | nil => rfl
  | cons x t ih =>
    have hx : x.length = n := h x (by simp)
    simp only [List.length_cons, List.flatten_cons, chunkRows]
    rw [← hx, List.take_left, List.drop_left, hx,
      ih (fun y hy => h y (by simp [hy]))]

theorem sum_map_const (l : List α) (n : Nat) :
    (l.map (fun _ => n)).sum = l.length * n := by
  induction l with
  | nil => simp
  | cons a t ih => simp [ih]; ring

theorem flatten_length_of_rows (lv : List (List α)) (R C : Nat)
    (hR : lv.length = R) (hC : ∀ row ∈ lv, row.length = C) :
    lv.flatten.length = R * C := by
  rw [List.length_flatten, List.map_congr_left (fun row hr => hC row hr),
    sum_map_const, hR]

theorem ravelC_length (L R C : Nat) (a : List (List (List α)))
    (hs : wellShaped3 L R C a) : (ravelC a).length = L * (R * C) := by
  obtain ⟨hL, hlv⟩ := hs
  unfold ravelC
  rw [List.length_flatten]
  have : ((a.map List.flatten).map List.length) = a.map (fun _ => R * C) := by
    rw [List.map_map, List.map_congr_left]
    intro lv hl
    exact flatten_length_of_rows lv R C (hlv lv hl).1 (hlv lv hl).2
  rw [this, sum_map_const, hL]

theorem reshape3_ravelC (L R C : Nat) (a : List (List (List α)))
    (hs : wellShaped3 L R C a) : reshape3 L R C (ravelC a) = a := by
  obtain ⟨hL, hlv⟩ := hs
  unfold reshape3 ravelC
  have hblock : ∀ b ∈ a.map List.flatten, b.length = R * C := by
    intro b hb
    obtain ⟨lv, hl, rfl⟩ := List.mem_map.mp hb
    exact flatten_length_of_rows lv R C (hlv lv hl).1 (hlv lv hl).2
  have hlen : (a.map List.flatten).length = L := by simp [hL]
  have hfun : ∀ lv ∈ a, (chunkRows R C ∘ List.flatten) lv = id lv := by
    intro lv hl
    show chunkRows R C lv.flatten = lv
    rw [← (hlv lv hl).1]
    exact chunkRows_flatten lv C (hlv lv hl).2
  rw [← hlen, chunkRows_flatten _ _ hblock, List.map_map,
    List.map_congr_left hfun, List.map_id]

theorem getD_append_add (x y : List α) (n : Nat) (d : α) :
    (x ++ y).getD (x.length + n) d = y.getD n d := by
  simp [List.getD, List.getElem?_append_right]

theorem encode_offset (l : List Nat) (n : Nat) (h : n < l.length) :
    (((l.map natToBE4).flatten).drop (4 * n)).take 4 = natToBE4 (l.getD n 0) := by
  induction l generalizing n with
  | nil => simp at h
  | cons x t ih =>
    cases n with
    | zero =>
      simp only [Nat.mul_zero, List.drop_zero, List.map_cons, List.flatten_cons]
      rw [show (4 : Nat) = (natToBE4 x).length from by simp [natToBE4], List.take_left]
      simp
    | succ m =>
      have h4 : (4 : Nat) * (m + 1) = (natToBE4 x).length + 4 * m := by
        simp [natToBE4]; ring
      rw [List.map_cons, List.flatten_cons, h4, List.drop_append]
      rw [ih m (by simpa using h)]
      simp

theorem flatten_getD (ls : List (List α)) (n q r : Nat) (d : α)
    (hlen : ∀ l ∈ ls, l.length = n) (hq : q < ls.length) (hr : r < n) :
    ls.flatten.getD (q * n + r) d = (ls.getD q []).getD r d := by
  induction ls generalizing q with
  | nil => simp at hq
  | cons x t ih =>
    cases q with
    | zero =>
      simp only [Nat.zero_mul, Nat.zero_add, List.flatten_cons]
      rw [List.getD_append _ _ _ _ (by rw [hlen x (by simp)]; exact hr)]
      simp
    | succ m =>
      have hx : (m + 1) * n + r = x.length + (m * n + r) := by
        rw [hlen x (by simp)]; ring
      rw [List.flatten_cons, hx, getD_append_add,
        ih m (fun l hl => hlen l (by simp [hl])) (by simpa using hq)]
      simp

/-! ## Masked horizontal interpolator

`eccoseas.downscale.horizontal.downscale_3D_points` and
`downscale_2D_points_with_zeros` are called by both notebooks but live in
the external `eccoseas` package; they are modelled here from the
specification of the Masked Horizontal Interpolator.  The interpolation
kernel itself is an implementation choice of the external library, so the
model is parametric in a kernel that may also fail (return `none`), in
which case the nearest-valid-point fallback applies.
-/

/-- An interpolation kernel: from the valid source samples (coordinate and
value pairs) and a target coordinate, produce a value, or fail. -/
abbrev Kernel := List ((Rat × Rat) × Rat) → (Rat × Rat) → Option Rat

/-- Squared planar distance in longitude/latitude. -/
def sqDist (p q : Rat × Rat) : Rat :=
  (p.1 - q.1) ^ 2 + (p.2 - q.2) ^ 2

/-- Modelled from the spec: the nearest-valid-point fallback of the external
interpolator — the value of the valid source sample nearest (by planar
distance) to the target coordinate. -/
def nearestValid (pts : List ((Rat × Rat) × Rat)) (tc : Rat × Rat) : Rat :=
  match pts with
  | [] => 0
  | p :: rest =>
    (rest.foldl (fun best q => if sqDist q.1 tc < sqDist best.1 tc then q else best) p).2

/-- Modelled from the spec: the per-level restriction to valid source
samples — keep exactly the samples whose source-mask entry is non-zero,
pairing each kept coordinate with its aligned value. -/
def validSubset (coords : List (Rat × Rat)) (values srcMask : List Rat) :
    List ((Rat × Rat) × Rat) :=
  ((coords.zip values).zip srcMask).filterMap
    (fun s => if s.2 ≠ 0 then some s.1 else none)

/-- Modelled from the spec: the value of one target cell that requires a
value — zero-fill when no source sample is valid, otherwise the kernel
result, with the nearest-valid-point fallback when the kernel fails. -/
def interpolateCell (kernel : Kernel) (valid : List ((Rat × Rat) × Rat))
    (tc : Rat × Rat) : Rat :=
  match valid with
  | [] => 0
  | _ =>
    match kernel valid tc with
    | some v => v
    | none => nearestValid valid tc

/-- Modelled from the spec: `eccoseas.downscale.horizontal.downscale_2D_points_with_zeros`
(external) — interpolate one level of scattered source samples onto the
target grid, writing an interpolated value at every target cell whose mask
entry is non-zero and exactly 0 at every other target cell. -/
def downscale_2D_points_with_zeros (kernel : Kernel) (coords : List (Rat × Rat))
    (values srcMask : List Rat) (XC YC : List (List Rat))
    (targetMask : List (List Rat)) : List (List Rat) :=
  let valid := validSubset coords values srcMask
  (List.range targetMask.length).map (fun i =>
    (List.range (targetMask.getD i []).length).map (fun j =>
      if (targetMask.getD i []).getD j 0 ≠ 0 then
        interpolateCell kernel valid
          ((XC.getD i []).getD j 0, (YC.getD i []).getD j 0)
      else 0))

/-- Modelled from the spec: `eccoseas.downscale.horizontal.downscale_3D_points`
(external) — each vertical level of the target mask is interpolated
independently from that level of the source values and source mask. -/
def downscale_3D_points (kernel : Kernel) (coords : List (Rat × Rat))
    (values srcMask : List (List Rat)) (XC YC : List (List Rat))
    (targetMask3 : List (List (List Rat))) : List (List (List Rat)) :=
  (List.range targetMask3.length).map (fun k =>
    downscale_2D_points_with_zeros kernel coords (values.getD k [])
      (srcMask.getD k []) XC YC (targetMask3.getD k []))

/-! ## Source-point preparation (initial-conditions notebook)

Embeddings of the notebook code that assembles and corrects the ECCO source
points before they are handed to the interpolator.
-/

/-- The longitude filter of the initial-conditions notebook: the boolean
selection computed from the assembled source longitudes, true exactly for
the points with negative longitude. -/
def local_indices (xc : List Rat) : List Bool :=
  xc.map (fun x => decide (x < 0))

/-- Boolean-mask indexing along the point axis: keep the entries whose
selector is true, in order. -/
def boolIndex (sel : List Bool) (xs : List α) : List α :=
  (sel.zip xs).filterMap (fun p => if p.1 then some p.2 else none)

/-- Boolean-mask indexing of a per-level 2D array along its point axis,
as the notebook applies the same selection to every level. -/
def filterPoints2D (sel : List Bool) (arr : List (List α)) : List (List α) :=
  arr.map (boolIndex sel)

/-- The hFac velocity correction of the initial-conditions notebook, one
level at a time: at the point positions where the cell-fraction factor is
non-zero, divide the raw transport value by the factor; everywhere else
leave the raw value untouched. -/
def hFacNormalizeLevel (vals hfac : List Rat) : List Rat :=
  (vals.zip hfac).map (fun p => if p.2 ≠ 0 then p.1 / p.2 else p.1)

/-- The hFac velocity correction applied over all vertical levels, as the
loop of the notebook over `k` does (`hFacW` for UVEL, `hFacS` for VVEL). -/
def hFacNormalize (grid hfac : List (List Rat)) : List (List Rat) :=
  (List.range grid.length).map (fun k =>
    hFacNormalizeLevel (grid.getD k []) (hfac.getD k []))

/-- The tile-rotation branches of the initial-conditions notebook for one
vertical level of one tile: which raveled source grid (UVELMASS `u_tile` or
VVELMASS `v_tile`, possibly negated) fills the block of a velocity variable
for a given tile number. -/
def velTileBlock (variable_name : String) (tile_number : Nat)
    (u_tile v_tile : List Rat) : List Rat :=
  if variable_name = "UVEL" then
    if tile_number < 7 then u_tile else v_tile
  else if variable_name = "VVEL" then
    if tile_number < 7 then v_tile else u_tile.map (fun x => -1 * x)
  else []

/-! ## Target-grid mask construction -/

/-- Running depth of the top of vertical cell `k`: the sum of the layer
thicknesses above it. -/
def depthAbove (delR : List Rat) (k : Nat) : Rat :=
  ((delR.take k).foldl (fun a b => a + b) 0)

/-- Open fraction of one vertical cell of one column: the fraction of the
layer `[top, top + dr]` that lies above the sea floor at depth `-d`
(bathymetry `d` is non-positive over the ocean), clipped to `[0, 1]`. -/
def cellOpenFraction (d top dr : Rat) : Rat :=
  if dr = 0 then 0 else max 0 (min 1 ((-d - top) / dr))

/-- Modelled from the spec: `eccoseas.downscale.hFac.create_hFacC_grid`
(external) — the mask-builder that converts a bathymetry depth array plus a
vertical layer-thickness list `delR` into a per-level open-fraction grid,
one level per entry of `delR`. -/
def create_hFacC_grid (depth : List (List Rat)) (delR : List Rat) :
    List (List (List Rat)) :=
  (List.range delR.length).map (fun k =>
    depth.map (fun row => row.map (fun d =>
      cellOpenFraction d (depthAbove delR k) (delR.getD k 0))))

/-- The mask step of the initial-conditions notebook: copy the hFac grid
and set every strictly positive entry to 1. -/
def maskFromHFac (h : List (List (List Rat))) : List (List (List Rat)) :=
  h.map (fun lv => lv.map (fun row => row.map (fun x => if x > 0 then 1 else x)))

/-! ## External forcing pipeline (forcing notebook) -/

/-- The per-timestep interpolation loop of the forcing notebook: each
timestep slice (already raveled to the point axis) is interpolated on its
own against the same source points, all-ones source mask, target grid and
fixed surface target mask. -/
def forcingInterpolation (kernel : Kernel) (points : List (Rat × Rat))
    (ecco_mask : List Rat) (XC YC : List (List Rat))
    (surface_mask : List (List Rat)) (exf_grid : List (List Rat)) :
    List (List (List Rat)) :=
  exf_grid.map (fun slice =>
    downscale_2D_points_with_zeros kernel points slice ecco_mask XC YC surface_mask)

/-- The unit-conversion step of the forcing notebook, applied between
interpolation and serialization: ATEMP gets 273.15 added everywhere,
SWDOWN and LWDOWN are multiplied by -1 everywhere, and every other
variable is left as interpolated. -/
def convert_to_mitgcm (variable_name : String)
    (grid : List (List (List Rat))) : List (List (List Rat)) :=
  if variable_name = "ATEMP" then
    grid.map (fun ts => ts.map (fun row => row.map (fun x => x + 27315 / 100)))
  else if variable_name = "SWDOWN" ∨ variable_name = "LWDOWN" then
    grid.map (fun ts => ts.map (fun row => row.map (fun x => x * (-1))))
  else grid

/-- The zero-wind step of the forcing notebook: read the flat wind field
back from file and multiply every element by 0 before rewriting it. -/
def make_zero_wind (g : List Rat) : List Rat :=
  g.map (fun x => x * 0)

/-! ## Generic element-access helpers -/

theorem getD_range_map (n : Nat) (f : Nat → α) (i : Nat) (d : α) (h : i < n) :
    ((List.range n).map f).getD i d = f i := by
  rw [List.getD_eq_getElem _ _ (by simp [h])]
  simp

theorem getD_map_of_lt (f : α → β) (l : List α) (i : Nat) (d : β) (e : α)
    (h : i < l.length) :
    (l.map f).getD i d = f (l.getD i e) := by
  rw [List.getD_eq_getElem _ _ (by simpa using h), List.getD_eq_getElem _ _ h]
  simp

theorem getD_zip (xs : List α) (ys : List β) (i : Nat) (dx : α) (dy : β)
    (hx : i < xs.length) (hy : i < ys.length) :
    (xs.zip ys).getD i (dx, dy) = (xs.getD i dx, ys.getD i dy) := by
  rw [List.getD_eq_getElem _ _ (by simp [List.length_zip]; omega),
    List.getD_eq_getElem _ _ hx, List.getD_eq_getElem _ _ hy]
  exact List.getElem_zip

/-! ## Claim theorems -/

/-- Claim C2: for every vertical level `k` and source point `i` within
range, the hFac velocity normalization divides the raw transport value by
the cell-fraction factor exactly where the factor is non-zero, and leaves
the raw value unmodified (no division) where the factor is zero. -/
theorem velocity_normalization_correct (grid hfac : List (List Rat)) (k i : Nat)
    (hk : k < grid.length) (hi : i < (grid.getD k []).length)
    (hlen : (grid.getD k []).length ≤ (hfac.getD k []).length) :
    ((hfac.getD k []).getD i 0 ≠ 0 →
      ((hFacNormalize grid hfac).getD k []).getD i 0
        = (grid.getD k []).getD i 0 / (hfac.getD k []).getD i 0)
    ∧ ((hfac.getD k []).getD i 0 = 0 →
      ((hFacNormalize grid hfac).getD k []).getD i 0
        = (grid.getD k []).getD i 0) := by
  have h1 : (hFacNormalize grid hfac).getD k []
      = hFacNormalizeLevel (grid.getD k []) (hfac.getD k []) :=
    getD_range_map _ _ _ _ hk
  rw [h1]
  unfold hFacNormalizeLevel
  have hzl : i < ((grid.getD k []).zip (hfac.getD k [])).length := by
    rw [List.length_zip]; omega
  rw [getD_map_of_lt _ _ i 0 (0, 0) hzl,
    getD_zip _ _ _ _ _ hi (lt_of_lt_of_le hi hlen)]
  constructor
  · intro hne
    show (if (hfac.getD k []).getD i 0 ≠ 0 then
        (grid.getD k []).getD i 0 / (hfac.getD k []).getD i 0
      else (grid.getD k []).getD i 0) = _
    rw [if_pos hne]
  · intro heq
    show (if (hfac.getD k []).getD i 0 ≠ 0 then
        (grid.getD k []).getD i 0 / (hfac.getD k []).getD i 0
      else (grid.getD k []).getD i 0) = _
    rw [if_neg (fun hc => hc heq)]

/-- Witness for C2 at a concrete level: with raw values `[6, 5]` and
factors `[2, 0]`, the first point is divided by its non-zero factor and the
second passes through unmodified. -/
theorem velocity_normalization_correct_witness :
    ((hFacNormalize [[(6 : Rat), 5]] [[2, 0]]).getD 0 []).getD 0 0
      = (([[(6 : Rat), 5]] : List (List Rat)).getD 0 []).getD 0 0
        / (([[(2 : Rat), 0]] : List (List Rat)).getD 0 []).getD 0 0 :=
  (velocity_normalization_correct [[6, 5]] [[2, 0]] 0 0 (by decide) (by decide)
    (by decide)).1 (by decide)

/-- Any target cell of one interpolated level whose mask entry is zero
receives exactly 0, whatever the kernel. -/
theorem downscale2D_masked_zero (kernel : Kernel) (coords : List (Rat × Rat))
    (values srcMask : List Rat) (XC YC : List (List Rat))
    (targetMask : List (List Rat)) (i j : Nat)
    (hi : i < targetMask.length) (hj : j < (targetMask.getD i []).length)
    (hm : (targetMask.getD i []).getD j 0 = 0) :
    ((downscale_2D_points_with_zeros kernel coords values srcMask XC YC
        targetMask).getD i []).getD j 1 = 0 := by
  simp only [downscale_2D_points_with_zeros]
  rw [getD_range_map _ _ _ _ hi, getD_range_map _ _ _ _ hj,
    if_neg (fun hc => hc hm)]

/-- A kernel that ignores its input and reports the constant 7, used to
witness mask-zeroing independently of the interpolation result. -/
def constKernel7 : Kernel := fun _ _ => some 7

/-- Claim C1: for every vertical level (initial-condition interpolation)
and every timestep (forcing interpolation), every target cell whose target
mask entry is zero (a land/closed cell) holds exactly 0 in the interpolated
output, regardless of what the interpolation kernel would have produced
there. -/
theorem masked_cells_are_zero (kernel : Kernel) (coords : List (Rat × Rat))
    (values srcMask : List (List Rat)) (XC YC : List (List Rat))
    (targetMask3 : List (List (List Rat))) (points : List (Rat × Rat))
    (ecco_mask : List Rat) (surface_mask : List (List Rat))
    (exf_grid : List (List Rat)) :
    (∀ k i j, k < targetMask3.length →
      i < (targetMask3.getD k []).length →
      j < ((targetMask3.getD k []).getD i []).length →
      ((targetMask3.getD k []).getD i []).getD j 0 = 0 →
      (((downscale_3D_points kernel coords values srcMask XC YC
          targetMask3).getD k []).getD i []).getD j 1 = 0)
    ∧ (∀ t i j, t < exf_grid.length →
      i < surface_mask.length →
      j < (surface_mask.getD i []).length →
      (surface_mask.getD i []).getD j 0 = 0 →
      (((forcingInterpolation kernel points ecco_mask XC YC surface_mask
          exf_grid).getD t []).getD i []).getD j 1 = 0) := by
  constructor
  · intro k i j hk hi hj hm
    unfold downscale_3D_points
    rw [getD_range_map _ _ _ _ hk]
    exact downscale2D_masked_zero kernel coords (values.getD k [])
      (srcMask.getD k []) XC YC (targetMask3.getD k []) i j hi hj hm
  · intro t i j ht hi hj hm
    unfold forcingInterpolation
    rw [getD_map_of_lt _ _ t [] [] ht]
    exact downscale2D_masked_zero kernel points (exf_grid.getD t [])
      ecco_mask XC YC surface_mask i j hi hj hm

/-- Witness for C1: a single-cell target whose mask is 0 yields 0 even
though the kernel would have produced 7. -/
theorem masked_cells_are_zero_witness :
    (((downscale_3D_points constKernel7 [(-1, 1)] [[5]] [[1]] [[2]] [[3]]
        [[[0]]]).getD 0 []).getD 0 []).getD 0 1 = 0 :=
  (masked_cells_are_zero constKernel7 [(-1, 1)] [[5]] [[1]] [[2]] [[3]]
    [[[0]]] [] [] [] []).1 0 0 0 (by decide) (by decide) (by decide) (by decide)

/-- Claim C6: the forcing pipeline maps each timestep independently: two
input stacks that agree at a timestep produce identical output at that
timestep, and every timestep is interpolated by the same call against the
same fixed target mask. -/
theorem timestep_independence (kernel : Kernel) (points : List (Rat × Rat))
    (ecco_mask : List Rat) (XC YC : List (List Rat))
    (surface_mask : List (List Rat)) (exf1 exf2 : List (List Rat)) (t : Nat) :
    (t < exf1.length → t < exf2.length → exf1.getD t [] = exf2.getD t [] →
      (forcingInterpolation kernel points ecco_mask XC YC surface_mask
          exf1).getD t []
        = (forcingInterpolation kernel points ecco_mask XC YC surface_mask
            exf2).getD t [])
    ∧ (t < exf1.length →
      (forcingInterpolation kernel points ecco_mask XC YC surface_mask
          exf1).getD t []
        = downscale_2D_points_with_zeros kernel points (exf1.getD t [])
            ecco_mask XC YC surface_mask) := by
  constructor
  · intro h1 h2 heq
    unfold forcingInterpolation
    rw [getD_map_of_lt _ _ t [] [] h1, getD_map_of_lt _ _ t [] [] h2, heq]
  · intro h1
    unfold forcingInterpolation
    rw [getD_map_of_lt _ _ t [] [] h1]

/-- Witness for C6: two forcing stacks that agree at timestep 0 but differ
at timestep 1 produce the same interpolated slice at timestep 0. -/
theorem timestep_independence_witness :
    (forcingInterpolation constKernel7 [(0, 0)] [1] [[1]] [[1]] [[1]]
        [[1], [2]]).getD 0 []
      = (forcingInterpolation constKernel7 [(0, 0)] [1] [[1]] [[1]] [[1]]
          [[1], [99]]).getD 0 [] :=
  (timestep_independence constKernel7 [(0, 0)] [1] [[1]] [[1]] [[1]]
    [[1], [2]] [[1], [99]] 0).1 (by decide) (by decide) (by decide)

/-- Claim C9: the unit conversions are applied uniformly to every cell of
every timestep between interpolation and serialization: ATEMP gains 273.15
everywhere, SWDOWN and LWDOWN are multiplied by -1 everywhere, and every
other variable is written unchanged. -/
theorem unit_conversions_uniform (variable_name : String)
    (grid : List (List (List Rat))) (t i j : Nat) (ht : t < grid.length)
    (hi : i < (grid.getD t []).length)
    (hj : j < ((grid.getD t []).getD i []).length) :
    (variable_name = "ATEMP" →
      (((convert_to_mitgcm variable_name grid).getD t []).getD i []).getD j 0
        = ((grid.getD t []).getD i []).getD j 0 + 27315 / 100)
    ∧ (variable_name = "SWDOWN" ∨ variable_name = "LWDOWN" →
      (((convert_to_mitgcm variable_name grid).getD t []).getD i []).getD j 0
        = ((grid.getD t []).getD i []).getD j 0 * (-1))
    ∧ (variable_name ≠ "ATEMP" → variable_name ≠ "SWDOWN" →
        variable_name ≠ "LWDOWN" →
      convert_to_mitgcm variable_name grid = grid) := by
  refine ⟨?_, ?_, ?_⟩
  · intro hv
    unfold convert_to_mitgcm
    rw [if_pos hv]
    rw [getD_map_of_lt _ _ t [] [] ht, getD_map_of_lt _ _ i [] [] hi,
      getD_map_of_lt _ _ j 0 0 hj]
  · intro hv
    have hne : variable_name ≠ "ATEMP" := by
      rcases hv with h | h <;> simp [h]
    unfold convert_to_mitgcm
    rw [if_neg hne, if_pos hv]
    rw [getD_map_of_lt _ _ t [] [] ht, getD_map_of_lt _ _ i [] [] hi,
      getD_map_of_lt _ _ j 0 0 hj]
  · intro h1 h2 h3
    unfold convert_to_mitgcm
    rw [if_neg h1, if_neg (by simp [h2, h3])]

/-- Witness for C9: ATEMP conversion at a one-cell grid adds 273.15. -/
theorem unit_conversions_uniform_witness :
    (((convert_to_mitgcm "ATEMP" [[[(10 : Rat)]]]).getD 0 []).getD 0 []).getD 0 0
      = ((([[[(10 : Rat)]]] : List (List (List Rat))).getD 0 []).getD 0 []).getD 0 0
        + 27315 / 100 :=
  (unit_conversions_uniform "ATEMP" [[[10]]] 0 0 0 (by decide) (by decide)
    (by decide)).1 rfl

/-- Claim C10: the zero-wind step keeps exactly the element count of the
wind field it reads back (so the zero file holds as many 4-byte values as
the original) and makes every element exactly 0. -/
theorem zero_wind_files (g : List Rat) (i : Nat) (hi : i < g.length) :
    (make_zero_wind g).length = g.length
    ∧ (make_zero_wind g).getD i 1 = 0 := by
  constructor
  · simp [make_zero_wind]
  · unfold make_zero_wind
    rw [getD_map_of_lt _ _ i 1 0 hi]
    exact Rat.mul_zero _

/-- Witness for C10 on the field `[3, -2]`: the length is preserved and the
first rewritten element is exactly 0. -/
theorem zero_wind_files_witness :
    (make_zero_wind [(3 : Rat), -2]).length = ([(3 : Rat), -2] : List Rat).length
    ∧ (make_zero_wind [(3 : Rat), -2]).getD 0 1 = 0 :=
  zero_wind_files [3, -2] 0 (by decide)

/-- An element kept by boolean indexing with a pointwise predicate selector
satisfies the predicate. -/
theorem mem_boolIndex_map (p : α → Bool) (xs : List α) (x : α)
    (hx : x ∈ boolIndex (xs.map p) xs) : p x = true := by
  induction xs with
  | nil => simp [boolIndex] at hx
  | cons a t ih =>
    rw [List.map_cons, boolIndex, List.zip_cons_cons, List.filterMap_cons] at hx
    cases hpa : p a with
    | false =>
      simp only [hpa, Bool.false_eq_true, if_false] at hx
      exact ih (show x ∈ boolIndex (t.map p) t from hx)
    | true =>
      simp only [hpa, if_true] at hx
      rcases List.mem_cons.mp hx with rfl | hmem
      · exact hpa
      · exact ih (show x ∈ boolIndex (t.map p) t from hmem)

/-- Boolean indexing with one selector commutes with pairing two aligned
arrays: filtering keeps the same index set on both. -/
theorem boolIndex_zip (sel : List Bool) (xs : List α) (ys : List β)
    (hx : xs.length = sel.length) (hy : ys.length = sel.length) :
    boolIndex sel (xs.zip ys) = (boolIndex sel xs).zip (boolIndex sel ys) := by
  induction sel generalizing xs ys with
  | nil =>
    cases xs with
    | nil => simp [boolIndex]
    | cons a t => simp at hx
  | cons b t ih =>
    cases xs with
    | nil => simp at hx
    | cons x xt =>
      cases ys with
      | nil => simp at hy
      | cons y yt =>
        have hrec := ih xt yt (by simpa using hx) (by simpa using hy)
        cases b with
        | false => simpa [boolIndex] using hrec
        | true => simpa [boolIndex] using hrec

/-- Claim C5: the longitude filter runs before interpolation: every source
longitude that survives the filter is negative (inside the accepted band),
the coordinate arrays are filtered by the same index set so pairing them
commutes with the filter, and each level of a per-level array is filtered
by that same selector. -/
theorem longitude_filter_before_interpolation (ecco_XC_points ecco_YC_points : List Rat)
    (ecco_mask_points : List (List Rat)) (x : Rat) (k : Nat) :
    (x ∈ boolIndex (local_indices ecco_XC_points) ecco_XC_points → x < 0)
    ∧ (ecco_YC_points.length = ecco_XC_points.length →
      boolIndex (local_indices ecco_XC_points) (ecco_XC_points.zip ecco_YC_points)
        = (boolIndex (local_indices ecco_XC_points) ecco_XC_points).zip
            (boolIndex (local_indices ecco_XC_points) ecco_YC_points))
    ∧ (k < ecco_mask_points.length →
      (filterPoints2D (local_indices ecco_XC_points) ecco_mask_points).getD k []
        = boolIndex (local_indices ecco_XC_points) (ecco_mask_points.getD k [])) := by
  refine ⟨?_, ?_, ?_⟩
  · intro hx
    have := mem_boolIndex_map (fun y => decide (y < 0)) ecco_XC_points x hx
    exact of_decide_eq_true this
  · intro hlen
    exact boolIndex_zip (local_indices ecco_XC_points) ecco_XC_points
      ecco_YC_points (by simp [local_indices]) (by simp [local_indices, hlen])
  · intro hk
    unfold filterPoints2D
    rw [getD_map_of_lt _ _ k [] [] hk]

/-- Witness for C5: filtering `[-1, 2]` keeps only the negative longitude,
and the same selector filters a per-level mask array. -/
theorem longitude_filter_before_interpolation_witness :
    (-1 : Rat) < 0
    ∧ (filterPoints2D (local_indices [(-1 : Rat), 2]) [[(1 : Rat), 0]]).getD 0 []
        = boolIndex (local_indices [(-1 : Rat), 2])
            (([[(1 : Rat), 0]] : List (List Rat)).getD 0 []) :=
  ⟨(longitude_filter_before_interpolation [(-1 : Rat), 2] [5, 6] [[1, 0]]
      (-1) 0).1 (by decide),
   (longitude_filter_before_interpolation [(-1 : Rat), 2] [5, 6] [[1, 0]]
      (-1) 0).2.2 (by decide)⟩

/-- Claim C8: the vector-component tile correction: tiles numbered below 7
take UVEL from the UVELMASS grid and VVEL from the VVELMASS grid
unmodified; tiles numbered 7 or above take UVEL from the VVELMASS grid and
VVEL from the UVELMASS grid multiplied by -1. -/
theorem tile_rotation_correct (tile_number : Nat) (u_tile v_tile : List Rat)
    (i : Nat) (hi : i < u_tile.length) :
    (tile_number < 7 →
      velTileBlock "UVEL" tile_number u_tile v_tile = u_tile
      ∧ velTileBlock "VVEL" tile_number u_tile v_tile = v_tile)
    ∧ (7 ≤ tile_number →
      velTileBlock "UVEL" tile_number u_tile v_tile = v_tile
      ∧ (velTileBlock "VVEL" tile_number u_tile v_tile).getD i 1
          = -1 * u_tile.getD i 0) := by
  constructor
  · intro h
    unfold velTileBlock
    exact ⟨by simp [h], by simp [h]⟩
  · intro h
    have hn : ¬ tile_number < 7 := by omega
    constructor
    · unfold velTileBlock
      simp [hn]
    · unfold velTileBlock
      rw [if_neg (by decide), if_pos rfl, if_neg hn,
        getD_map_of_lt _ _ i 1 0 hi]

/-- Witness for C8 on tile 8: UVEL comes from the VVELMASS values and VVEL
from the UVELMASS values negated. -/
theorem tile_rotation_correct_witness :
    velTileBlock "UVEL" 8 [(2 : Rat)] [3] = [3]
    ∧ (velTileBlock "VVEL" 8 [(2 : Rat)] [3]).getD 0 1
        = -1 * ([(2 : Rat)] : List Rat).getD 0 0 :=
  (tile_rotation_correct 8 [2] [3] 0 (by decide)).2 (by decide)

/-- Every element of the C-order ravel comes from some row of some level. -/
theorem mem_ravelC (a : List (List (List α))) (x : α) (hx : x ∈ ravelC a) :
    ∃ lv ∈ a, ∃ row ∈ lv, x ∈ row := by
  unfold ravelC at hx
  rw [List.mem_flatten] at hx
  obtain ⟨b, hb, hxb⟩ := hx
  obtain ⟨lv, hlv, rfl⟩ := List.mem_map.mp hb
  rw [List.mem_flatten] at hxb
  obtain ⟨row, hrow, hxr⟩ := hxb
  exact ⟨lv, hlv, row, hrow, hxr⟩

/-- Each flattened level of a well-shaped array has `R * C` entries. -/
theorem blocks_length (R C : Nat) (a : List (List (List α)))
    (hlv : ∀ lv ∈ a, lv.length = R ∧ ∀ row ∈ lv, row.length = C) :
    ∀ b ∈ a.map List.flatten, b.length = R * C := by
  intro b hb
  obtain ⟨lv, hl, rfl⟩ := List.mem_map.mp hb
  exact flatten_length_of_rows lv R C (hlv lv hl).1 (hlv lv hl).2

/-- The C-order ravel places the element of level `k`, row `i`, column `j`
at flat index `(k * R + i) * C + j`. -/
theorem ravelC_getD (L R C : Nat) (a : List (List (List α)))
    (hs : wellShaped3 L R C a) (k i j : Nat) (hk : k < L) (hi : i < R)
    (hj : j < C) (d : α) :
    (ravelC a).getD ((k * R + i) * C + j) d = ((a.getD k []).getD i []).getD j d := by
  obtain ⟨hL, hlv⟩ := hs
  have hkl : k < a.length := by omega
  have hmem : a.getD k [] ∈ a := by
    rw [List.getD_eq_getElem _ _ hkl]
    exact List.getElem_mem hkl
  have hrows : (a.getD k []).length = R := (hlv _ hmem).1
  have hcols : ∀ row ∈ a.getD k [], row.length = C := (hlv _ hmem).2
  have hidx : (k * R + i) * C + j = k * (R * C) + (i * C + j) := by ring
  have hr : i * C + j < R * C := by
    calc i * C + j < i * C + C := by omega
      _ = (i + 1) * C := by ring
      _ ≤ R * C := Nat.mul_le_mul_right C (by omega)
  rw [hidx]
  unfold ravelC
  rw [flatten_getD _ (R * C) k (i * C + j) d (blocks_length R C a hlv)
    (by simpa using hkl) hr]
  rw [getD_map_of_lt List.flatten a k [] [] hkl]
  rw [flatten_getD _ C i j d hcols (by omega) hj]

/-- Claim C3: serializing a well-shaped array whose values (as 32-bit
patterns) fit the 4-byte format and deserializing the file back with the
documented shape and ordering reproduces the original array exactly; for a
single-level array the (rows, cols) reshape reproduces its only level. -/
theorem binary_roundtrip (L R C : Nat) (a : List (List (List Nat)))
    (hs : wellShaped3 L R C a)
    (hv : ∀ lv ∈ a, ∀ row ∈ lv, ∀ x ∈ row, x < 2 ^ 32) :
    readBigEndianFile3 L R C (writeBigEndianFile a) = a
    ∧ (L = 1 → readBigEndianFile2 R C (writeBigEndianFile a) = a.getD 0 []) := by
  have hvflat : ∀ x ∈ ravelC a, x < 2 ^ 32 := by
    intro x hx
    obtain ⟨lv, hlv, row, hrow, hxr⟩ := mem_ravelC a x hx
    exact hv lv hlv row hrow x hxr
  have hdec : decodeBE4 (writeBigEndianFile a) = ravelC a := by
    unfold writeBigEndianFile
    exact decodeBE4_encode _ hvflat
  constructor
  · unfold readBigEndianFile3
    rw [hdec]
    exact reshape3_ravelC L R C a hs
  · intro hL1
    obtain ⟨hL, hlv⟩ := hs
    unfold readBigEndianFile2
    rw [hdec]
    rw [hL1] at hL
    cases a with
    | nil => simp at hL
    | cons lv rest =>
      have hrest : rest = [] := by
        simpa using hL
      subst hrest
      have hlv0 := hlv lv (by simp)
      show chunkRows R C (ravelC [lv]) = lv
      have : ravelC [lv] = lv.flatten := by
        simp [ravelC]
      rw [this, ← hlv0.1]
      exact chunkRows_flatten lv C hlv0.2

/-- Witness for C3: a 1-level, 1-row, 2-column array round-trips through
the big-endian file bit-exactly, in both the 3D and the 2D reshape. -/
theorem binary_roundtrip_witness :
    readBigEndianFile3 1 1 2 (writeBigEndianFile [[[5, 300]]]) = [[[5, 300]]]
    ∧ readBigEndianFile2 1 2 (writeBigEndianFile [[[5, 300]]])
        = ([[[5, 300]]] : List (List (List Nat))).getD 0 [] :=
  ⟨(binary_roundtrip 1 1 2 [[[5, 300]]] (by decide) (by decide)).1,
   (binary_roundtrip 1 1 2 [[[5, 300]]] (by decide) (by decide)).2 rfl⟩

/-- Claim C4: every persisted field is a flat, headerless byte stream of
4-byte values: its length is 4 bytes per cell, the 4 bytes of the cell at
level `k`, row `i`, column `j` sit at byte offset `4 * ((k * R + i) * C + j)`
(so the column/longitude index varies fastest, then the row/latitude index,
then the level index slowest), and each 4-byte group is the big-endian
(most significant byte first) encoding of its value. -/
theorem binary_layout_bigendian_rowmajor (L R C : Nat)
    (a : List (List (List Nat))) (hs : wellShaped3 L R C a) (k i j : Nat)
    (hk : k < L) (hi : i < R) (hj : j < C) (x : Nat) (hx : x < 2 ^ 32) :
    (writeBigEndianFile a).length = 4 * (L * (R * C))
    ∧ ((writeBigEndianFile a).drop (4 * ((k * R + i) * C + j))).take 4
        = natToBE4 (((a.getD k []).getD i []).getD j 0)
    ∧ (natToBE4 x).foldl (fun acc b => acc * 256 + b) 0 = x := by
  refine ⟨?_, ?_, ?_⟩
  · unfold writeBigEndianFile
    rw [List.length_flatten, List.map_map]
    have hc : ((ravelC a).map (List.length ∘ natToBE4))
        = (ravelC a).map (fun _ => 4) := by
      apply List.map_congr_left
      intro y _
      simp [natToBE4]
    rw [hc, sum_map_const, ravelC_length L R C a hs]
    ring
  · unfold writeBigEndianFile
    have hn : (k * R + i) * C + j < (ravelC a).length := by
      rw [ravelC_length L R C a hs]
      have h1 : k * R + i < L * R := by
        calc k * R + i < k * R + R := by omega
          _ = (k + 1) * R := by ring
          _ ≤ L * R := Nat.mul_le_mul_right R (by omega)
      calc (k * R + i) * C + j < (k * R + i) * C + C := by omega
        _ = (k * R + i + 1) * C := by ring
        _ ≤ (L * R) * C := Nat.mul_le_mul_right C (by omega)
        _ = L * (R * C) := by ring
    rw [encode_offset _ _ hn, ravelC_getD L R C a hs k i j hk hi hj 0]
  · simp only [natToBE4, List.foldl_cons, List.foldl_nil]
    omega

/-- Witness for C4: the layout of a concrete 1-by-1-by-2 array, with the
big-endian fold check at the value 258. -/
theorem binary_layout_bigendian_rowmajor_witness :
    (writeBigEndianFile [[[5, 300]]]).length = 4 * (1 * (1 * 2))
    ∧ ((writeBigEndianFile [[[5, 300]]]).drop (4 * ((0 * 1 + 0) * 2 + 1))).take 4
        = natToBE4 (((([[[5, 300]]] : List (List (List Nat))).getD 0 []).getD 0
            []).getD 1 0)
    ∧ (natToBE4 258).foldl (fun acc b => acc * 256 + b) 0 = 258 :=
  binary_layout_bigendian_rowmajor 1 1 2 [[[5, 300]]] (by decide) 0 0 1
    (by decide) (by decide) (by decide) 258 (by decide)

/-- The interpolated level produced by the 2D downscaling routine has
exactly the shape of the target mask it was given. -/
theorem downscale2D_wellshaped (kernel : Kernel) (coords : List (Rat × Rat))
    (values srcMask : List Rat) (XC YC : List (List Rat))
    (tm : List (List Rat)) (R C : Nat) (hr : tm.length = R)
    (hc : ∀ row ∈ tm, row.length = C) :
    (downscale_2D_points_with_zeros kernel coords values srcMask XC YC
        tm).length = R
    ∧ ∀ row ∈ downscale_2D_points_with_zeros kernel coords values srcMask XC
        YC tm, row.length = C := by
  constructor
  · simp [downscale_2D_points_with_zeros, hr]
  · intro row hrow
    simp only [downscale_2D_points_with_zeros, List.mem_map,
      List.mem_range] at hrow
    obtain ⟨i, hi, rfl⟩ := hrow
    simp only [List.length_map, List.length_range]
    apply hc
    rw [List.getD_eq_getElem _ _ hi]
    exact List.getElem_mem hi

/-- Each level of the target mask built from the bathymetry and `delR` has
the shape of the bathymetry grid. -/
theorem mask_level_shape (depth : List (List Rat)) (delR : List Rat)
    (R C : Nat) (hdr : depth.length = R)
    (hdc : ∀ row ∈ depth, row.length = C) (k : Nat) (hk : k < delR.length) :
    ((maskFromHFac (create_hFacC_grid depth delR)).getD k []).length = R
    ∧ ∀ row ∈ (maskFromHFac (create_hFacC_grid depth delR)).getD k [],
        row.length = C := by
  have hclen : (create_hFacC_grid depth delR).length = delR.length := by
    simp [create_hFacC_grid]
  have h1 : (maskFromHFac (create_hFacC_grid depth delR)).getD k []
      = ((create_hFacC_grid depth delR).getD k []).map
          (fun row => row.map (fun x => if x > 0 then 1 else x)) := by
    unfold maskFromHFac
    rw [getD_map_of_lt _ _ k [] [] (by omega)]
  have h2 : (create_hFacC_grid depth delR).getD k []
      = depth.map (fun row => row.map (fun d =>
          cellOpenFraction d (depthAbove delR k) (delR.getD k 0))) := by
    unfold create_hFacC_grid
    exact getD_range_map _ _ _ _ hk
  rw [h1, h2]
  constructor
  · simp [hdr]
  · intro row hrow
    rw [List.map_map, List.mem_map] at hrow
    obtain ⟨drow, hd, rfl⟩ := hrow
    simp [hdc drow hd]

/-- The C-order ravel of a one-level array is the flattening of that
level. -/
theorem ravelC_singleton (lv : List (List α)) : ravelC [lv] = lv.flatten := by
  simp [ravelC]

/-- Claim C7: the interpolated output has one vertical level per entry of
the vertical discretization `delR` used to build the target mask; the
single-level surface-height field is interpolated against only the surface
slice (`take 1`) of that mask, giving exactly one level whose serialized
form carries `rows * cols` values and hence no level dimension. -/
theorem vertical_level_invariant (kernel : Kernel) (coords : List (Rat × Rat))
    (values srcMask : List (List Rat)) (XC YC : List (List Rat))
    (depth : List (List Rat)) (delR : List Rat) (R C : Nat)
    (hdr : depth.length = R) (hdc : ∀ row ∈ depth, row.length = C) :
    (downscale_3D_points kernel coords values srcMask XC YC
        (maskFromHFac (create_hFacC_grid depth delR))).length = delR.length
    ∧ (delR ≠ [] →
      (downscale_3D_points kernel coords values srcMask XC YC
          ((maskFromHFac (create_hFacC_grid depth delR)).take 1)).length = 1
      ∧ (ravelC (downscale_3D_points kernel coords values srcMask XC YC
            ((maskFromHFac (create_hFacC_grid depth delR)).take 1))).length
          = R * C) := by
  constructor
  · simp [downscale_3D_points, maskFromHFac, create_hFacC_grid]
  · intro h
    have hpos : 0 < delR.length := List.length_pos.mpr h
    have hmlen : (maskFromHFac (create_hFacC_grid depth delR)).length
        = delR.length := by
      simp [maskFromHFac, create_hFacC_grid]
    have htake : ((maskFromHFac (create_hFacC_grid depth delR)).take 1).length
        = 1 := by
      rw [List.length_take, hmlen]
      omega
    constructor
    · simp only [downscale_3D_points, List.length_map, List.length_range]
      exact htake
    · have hget0 : ((maskFromHFac (create_hFacC_grid depth delR)).take 1).getD 0 []
          = (maskFromHFac (create_hFacC_grid depth delR)).getD 0 [] := by
        rw [List.getD_eq_getElem _ _ (by rw [htake]; omega),
          List.getD_eq_getElem _ _ (by rw [hmlen]; omega)]
        exact List.getElem_take _
      have hshape := mask_level_shape depth delR R C hdr hdc 0 hpos
      have hds := downscale2D_wellshaped kernel coords (values.getD 0 [])
        (srcMask.getD 0 []) XC YC
        ((maskFromHFac (create_hFacC_grid depth delR)).getD 0 []) R C
        hshape.1 hshape.2
      have hout : downscale_3D_points kernel coords values srcMask XC YC
          ((maskFromHFac (create_hFacC_grid depth delR)).take 1)
          = [downscale_2D_points_with_zeros kernel coords (values.getD 0 [])
              (srcMask.getD 0 []) XC YC
              ((maskFromHFac (create_hFacC_grid depth delR)).getD 0 [])] := by
        unfold downscale_3D_points
        rw [htake]
        simp only [List.range_succ, List.range_zero, List.nil_append,
          List.map_cons, List.map_nil, hget0]
      rw [hout, ravelC_singleton]
      exact flatten_length_of_rows _ R C hds.1 hds.2

/-- Witness for C7: with a one-cell bathymetry and a two-layer `delR`, the
3D output has two levels and the surface-slice output has one. -/
theorem vertical_level_invariant_witness :
    (downscale_3D_points constKernel7 [(0, 0)] [[1], [2]] [[1], [1]] [[0]]
        [[0]] (maskFromHFac (create_hFacC_grid [[-100]] [10, 20]))).length
      = ([(10 : Rat), 20] : List Rat).length
    ∧ (downscale_3D_points constKernel7 [(0, 0)] [[1], [2]] [[1], [1]] [[0]]
        [[0]] ((maskFromHFac (create_hFacC_grid [[-100]] [10, 20])).take
          1)).length = 1 :=
  ⟨(vertical_level_invariant constKernel7 [(0, 0)] [[1], [2]] [[1], [1]]
      [[0]] [[0]] [[-100]] [10, 20] 1 1 (by decide) (by decide)).1,
   ((vertical_level_invariant constKernel7 [(0, 0)] [[1], [2]] [[1], [1]]
      [[0]] [[0]] [[-100]] [10, 20] 1 1 (by decide) (by decide)).2
      (by decide)).1⟩
